import Mathlib

/-!
Workflows: the job model of `model/job.go`.

A shallow embedding of the job model of the workflows service: input
parameters and their projection to a map, validation of a job against a
workflow, and the textual encoding and decoding of a job status.

Conventions of the embedding.

* A Go `string` used as a name, a value or a message is a Lean `String`.
* A Go `[]byte` is a list of bytes, `List (Fin 256)`.
* A Go `map[string]V` is a `GoMap V`: a list of key/value pairs that
  `GoMap.set` keeps free of duplicate keys. Only lookups are observed, so
  the position of a key in the list carries no meaning.
* `JobStatus` is Go's `type JobStatus int`; it is embedded as `Int`.
* An `error` is `Option String`: `none` is Go's `nil`, `some msg` is an
  error whose `Error()` text is `msg`.
* Pointer arguments (`*Job`, `*Workflow`) are taken to be non-nil.
-/

namespace Workflows

/-- A Go `string` holding text. -/
abbrev GoString := String

/-! ## Go maps -/

/-- A Go map from strings to `V`, as a list of key/value pairs. -/
abbrev GoMap (V : Type) := List (String × V)

namespace GoMap

/-- The empty map: `map[string]V{}` or `make(map[string]V)`. -/
def empty {V : Type} : GoMap V := []

/-- The assignment `m[k] = v`: overwrite the entry for `k` when there is
one, add an entry otherwise. -/
def set {V : Type} : GoMap V → String → V → GoMap V
  | [], k, v => [(k, v)]
  | (k', v') :: m, k, v =>
    if k' = k then (k, v) :: m else (k', v') :: set m k v

/-- The lookup `v, ok := m[k]`: `some v` when `ok`, `none` otherwise. -/
def get? {V : Type} : GoMap V → String → Option V
  | [], _ => none
  | (k', v') :: m, k => if k' = k then some v' else get? m k

end GoMap

/-! ## Data model -/

/-- Go's `type JobStatus int`. -/
abbrev JobStatus := Int

/-- `StatusDone JobStatus = iota`, the first constant of the block. -/
def StatusDone : JobStatus := 0
/-- Second constant of the `iota` block. -/
def StatusPending : JobStatus := 1
/-- Third constant of the `iota` block. -/
def StatusProcessing : JobStatus := 2
/-- Fourth constant of the `iota` block. -/
def StatusFailure : JobStatus := 3

/-- The input parameter of a job. -/
structure InputParameter where
  Name : String
  Value : String
deriving DecidableEq

/-- Go's `type InputParameters []InputParameter`. -/
abbrev InputParameters := List InputParameter

/-- The CLI command, its output and its exit status. -/
structure TaskResultCLI where
  Command : List String
  Output : String
  Error : String
  ExitCode : Int
deriving DecidableEq

/-- The HTTP request of a task. -/
structure TaskResultHTTPRequest where
  URI : String
  Method : String
  Body : String
  Headers : List String
deriving DecidableEq

/-- The HTTP response of a task. -/
structure TaskResultHTTPResponse where
  StatusCode : Int
  Body : String
deriving DecidableEq

/-- The SMTP message of a task. -/
structure TaskResultSMTP where
  Sender : String
  Recipients : List String
  Message : String
  Error : String
deriving DecidableEq

/-- The result of the execution of a task; the four payloads are pointers
in the source, `none` is the nil pointer. -/
structure TaskResult where
  Name : String
  «Type» : String
  Success : Bool
  CLI : Option TaskResultCLI
  HTTPRequest : Option TaskResultHTTPRequest
  HTTPResponse : Option TaskResultHTTPResponse
  SMTP : Option TaskResultSMTP
deriving DecidableEq

/-- The execution job of a workflow. `InsertTime` is a `time.Time` in the
source and is kept as a number of nanoseconds. -/
structure Job where
  ID : String
  WorkflowName : String
  InputParameters : InputParameters
  Status : JobStatus
  Results : List TaskResult
  InsertTime : Int
deriving DecidableEq

/-- Modelled from the spec: the type `Workflow`, declared outside
`model/job.go`. The data model gives it a `Name` and the sequence of the
names of its required input parameters; `Job.Validate` reads only the
latter. -/
structure Workflow where
  Name : String
  InputParameters : List String
deriving DecidableEq

/-! ## Parameter model -/

/-- The method `InputParameters.Map`: start from the empty map and assign
`ret[val.Name] = val.Value` for every entry, in order. -/
def InputParameters.Map (param : InputParameters) : GoMap String :=
  param.foldl (fun ret val => GoMap.set ret val.Name val.Value) GoMap.empty

/-! ## Validation -/

/-- The rendering by `fmt` of a `[]string` under the verb `%s`: the
elements separated by one space, between square brackets. -/
def formatStrings (xs : List String) : String :=
  "[" ++ " ".intercalate xs ++ "]"

/-- The format `ErrMsgMissingParamF = "Missing input parameters: %s"`,
applied to the rendering of its one argument. -/
def ErrMsgMissingParamF (arg : String) : String :=
  "Missing input parameters: " ++ arg

/-- First loop of `Job.Validate`: the local map `inputParameters`, built by
`inputParameters[param.Name] = param.Value` over the job's parameters. -/
def Job.inputParameterMap (job : Job) : GoMap String :=
  job.InputParameters.foldl
    (fun m param => GoMap.set m param.Name param.Value) GoMap.empty

/-- Second loop of `Job.Validate`, from a given value of `missing`: every
key of the workflow that the map lacks is appended. -/
def Job.collectMissing (inputParameters : GoMap String) :
    List String → List String → List String
  | missing, [] => missing
  | missing, key :: keys =>
    if (GoMap.get? inputParameters key).isSome
    then Job.collectMissing inputParameters missing keys
    else Job.collectMissing inputParameters (missing ++ [key]) keys

/-- The slice `missing` at the end of the second loop of `Job.Validate`. -/
def Job.missing (job : Job) (workflow : Workflow) : List String :=
  Job.collectMissing job.inputParameterMap [] workflow.InputParameters

/-- The method `Job.Validate`: the error that names the missing parameters
when there is one, `nil` otherwise. -/
def Job.Validate (job : Job) (workflow : Workflow) : Option String :=
  let missing := job.missing workflow
  if missing.length > 0 then
    some (ErrMsgMissingParamF (formatStrings missing))
  else
    none

/-! ## Bytes, runes and case folding (Go's `utf8`, `unicode`, `strings`) -/

/-- One byte of a Go `[]byte` or of a Go `string`. -/
abbrev Byte := Fin 256

/-- The byte of a number below 256. -/
def toByte (n : Nat) : Byte := Fin.ofNat n

/-- The UTF-8 encoding of one Unicode scalar value. -/
def encodeRune (c : Nat) : List Byte :=
  if c < 0x80 then [toByte c]
  else if c < 0x800 then [toByte (0xC0 + c / 64), toByte (0x80 + c % 64)]
  else if c < 0x10000 then
    [toByte (0xE0 + c / 4096), toByte (0x80 + c / 64 % 64),
     toByte (0x80 + c % 64)]
  else
    [toByte (0xF0 + c / 262144), toByte (0x80 + c / 4096 % 64),
     toByte (0x80 + c / 64 % 64), toByte (0x80 + c % 64)]

/-- The conversion `[]byte(s)` of a string: its UTF-8 bytes. -/
def goBytes (s : String) : List Byte :=
  s.data.flatMap (fun c => encodeRune c.toNat)

/-- Go's `utf8.RuneError`, the rune an invalid encoding decodes to. -/
def RuneError : Nat := 0xFFFD

/-- Whether `b` is a byte of the range `lo..hi`, bounds included. -/
def inRange (lo hi : Nat) (b : Byte) : Bool := lo ≤ b.val && b.val ≤ hi

/-- Go's `utf8.DecodeRune`: the first rune of a byte sequence and the
number of bytes it takes; an invalid or truncated encoding gives
`RuneError` with width 1, and the empty sequence `RuneError` with width 0. -/
def decodeRune : List Byte → Nat × Nat
  | [] => (RuneError, 0)
  | b0 :: rest =>
    if b0.val < 0x80 then (b0.val, 1)
    else if inRange 0xC2 0xDF b0 then
      match rest with
      | b1 :: _ =>
        if inRange 0x80 0xBF b1 then
          ((b0.val - 0xC0) * 64 + (b1.val - 0x80), 2)
        else (RuneError, 1)
      | _ => (RuneError, 1)
    else if inRange 0xE0 0xEF b0 then
      match rest with
      | b1 :: b2 :: _ =>
        let lo := if b0.val = 0xE0 then 0xA0 else 0x80
        let hi := if b0.val = 0xED then 0x9F else 0xBF
        if inRange lo hi b1 && inRange 0x80 0xBF b2 then
          ((b0.val - 0xE0) * 4096 + (b1.val - 0x80) * 64 + (b2.val - 0x80), 3)
        else (RuneError, 1)
      | _ => (RuneError, 1)
    else if inRange 0xF0 0xF4 b0 then
      match rest with
      | b1 :: b2 :: b3 :: _ =>
        let lo := if b0.val = 0xF0 then 0x90 else 0x80
        let hi := if b0.val = 0xF4 then 0x8F else 0xBF
        if inRange lo hi b1 && inRange 0x80 0xBF b2 && inRange 0x80 0xBF b3 then
          ((b0.val - 0xF0) * 262144 + (b1.val - 0x80) * 4096
            + (b2.val - 0x80) * 64 + (b3.val - 0x80), 4)
        else (RuneError, 1)
      | _ => (RuneError, 1)
    else (RuneError, 1)

/-- The runes of a byte sequence, as `for _, r := range s` yields them;
the first argument bounds the number of runes read. -/
def runesAux : Nat → List Byte → List Nat
  | 0, _ => []
  | _ + 1, [] => []
  | fuel + 1, b :: s =>
    let d := decodeRune (b :: s)
    d.1 :: runesAux fuel ((b :: s).drop d.2)

/-- The runes of a byte sequence. A rune takes at least one byte, so the
length of the sequence bounds their number. -/
def runes (s : List Byte) : List Nat := runesAux s.length s

/-- Go's `unicode.SimpleFold` on the orbits that contain an ASCII rune:
the letters other than K and S alternate between their two cases, K goes
to k, k to the Kelvin sign U+212A and that back to K, S goes to s, s to the
long s U+017F and that back to S. These are the only orbits a comparison
with an ASCII rune reaches; every other rune is left as it is. -/
def SimpleFold (r : Nat) : Nat :=
  if r = 0x4B then 0x6B
  else if r = 0x6B then 0x212A
  else if r = 0x212A then 0x4B
  else if r = 0x53 then 0x73
  else if r = 0x73 then 0x17F
  else if r = 0x17F then 0x53
  else if 0x41 ≤ r ∧ r ≤ 0x5A then r + 0x20
  else if 0x61 ≤ r ∧ r ≤ 0x7A then r - 0x20
  else r

/-- The loop `for r != sr && r < tr { r = unicode.SimpleFold(r) }` of
`strings.EqualFold`, and its final test `r == tr`. An orbit of simple
folding has at most four runes, which bounds the iterations. -/
def foldReaches (sr tr : Nat) : Nat → Nat → Bool
  | 0, r => r == tr
  | fuel + 1, r =>
    if r ≠ sr ∧ r < tr then foldReaches sr tr fuel (SimpleFold r)
    else r == tr

/-- The body of the loop of `strings.EqualFold`: whether the runes `sr` and
`tr` are equal under simple case folding. -/
def equalFoldRune (sr tr : Nat) : Bool :=
  if tr = sr then true
  else
    let lo := min sr tr
    let hi := max sr tr
    if hi < 0x80 then 0x41 ≤ lo && lo ≤ 0x5A && hi == lo + 0x20
    else foldReaches lo hi 4 (SimpleFold lo)

/-- The comparison of two sequences of runes, rune by rune. -/
def equalFoldRunes : List Nat → List Nat → Bool
  | [], [] => true
  | sr :: s, tr :: t => equalFoldRune sr tr && equalFoldRunes s t
  | _, _ => false

/-- Go's `strings.EqualFold`: whether `s` and `t`, read as UTF-8, are equal
under simple Unicode case folding. -/
def EqualFold (s t : List Byte) : Bool :=
  equalFoldRunes (runes s) (runes t)

/-! ## Job status -/

/-- The method `JobStatus.String`. -/
def JobStatus.String (stat : JobStatus) : GoString :=
  if stat = StatusPending then "pending"
  else if stat = StatusProcessing then "processing"
  else if stat = StatusDone then "done"
  else if stat = StatusFailure then "failed"
  else "unknown"

/-- The method `JobStatus.MarshalJSON`: the bytes of the status text and a
nil error. -/
def JobStatus.MarshalJSON (stat : JobStatus) : List Byte × Option GoString :=
  (goBytes (JobStatus.String stat), none)

/-- What a call `x.UnmarshalJSON(b)` leaves behind. The method has a value
receiver: it works on `stat`, a copy of the caller's `x`. -/
structure UnmarshalJSONResult where
  /-- The method's own variable `stat` when it returns. -/
  stat : JobStatus
  /-- The caller's variable `x` after the call. -/
  receiver : JobStatus
  /-- The returned error. -/
  err : Option GoString
deriving DecidableEq

/-- The method `JobStatus.UnmarshalJSON`, called on a variable that holds
`x`. The switch assigns to the copy `stat`; nothing is written to the
caller's variable, and the only `return` gives `nil`. -/
def JobStatus.UnmarshalJSON (x : JobStatus) (b : List Byte) :
    UnmarshalJSONResult :=
  let str := b
  let stat : JobStatus :=
    if EqualFold str (goBytes "pending") then StatusPending
    else if EqualFold str (goBytes "processing") then StatusProcessing
    else if EqualFold str (goBytes "done") then StatusDone
    else if EqualFold str (goBytes "failure") then StatusFailure
    else -1
  { stat := stat, receiver := x, err := none }

/-! ## Definitions used to state the properties -/

/-- The last entry of `P` named `n`, when there is one. -/
def lastNamed (P : InputParameters) (n : String) : Option InputParameter :=
  (P.filter (fun p => p.Name = n)).getLast?

/-- The job `job` with `P` as its input parameters. -/
def Job.withParameters (job : Job) (P : Workflows.InputParameters) : Job :=
  { job with InputParameters := P }

/-- The workflow of the scenarios: `w1`, which requires `host`. -/
def workflowW1 : Workflow := ⟨"w1", ["host"]⟩

/-- A pending job for `w1` without any input parameter. -/
def jobNoParameters : Job := ⟨"", "w1", [], StatusPending, [], 0⟩

/-- The four wire tokens of a status, as bytes. -/
def statusTokens : List (List Byte) :=
  [goBytes "pending", goBytes "processing", goBytes "done", goBytes "failed"]

/-- The validator as the design describes it: the names present on the job
are the keys of the Parameter Model's map `Map`; every name the workflow
declares is checked for membership; the missing ones are collected in the
declared order, and the result is success only when none is missing. -/
def Job.ValidateByMap (job : Job) (workflow : Workflow) : Option String :=
  let present := InputParameters.Map job.InputParameters
  let missing :=
    workflow.InputParameters.filter (fun n => (GoMap.get? present n).isNone)
  if missing = [] then none
  else some (ErrMsgMissingParamF (formatStrings missing))

/-- Go's zero value of `JobStatus`, a type whose underlying type is `int`:
the value of a variable or of a struct field that was never set. -/
def zeroJobStatus : JobStatus := 0

/-- A job built by a composite literal that gives every field but `Status`,
which is left at its zero value. -/
def Job.withoutStatus (ID WorkflowName : String)
    (InputParameters : Workflows.InputParameters) (Results : List TaskResult)
    (InsertTime : Int) : Job :=
  { ID := ID, WorkflowName := WorkflowName, InputParameters := InputParameters,
    Status := zeroJobStatus, Results := Results, InsertTime := InsertTime }

/-! ## Lemmas on maps and on the two loops of `Validate` -/

theorem GoMap.get?_set {V : Type} (m : GoMap V) (k k' : String) (v : V) :
    GoMap.get? (GoMap.set m k v) k' = if k = k' then some v else GoMap.get? m k' := by
  induction m with
  | nil => simp [GoMap.set, GoMap.get?]
  | cons e m ih =>
    obtain ⟨a, w⟩ := e
    by_cases h : a = k
    · subst h
      by_cases h' : a = k' <;> simp [GoMap.set, GoMap.get?, h']
    · by_cases h' : a = k'
      · subst h'
        have hk : ¬ k = a := fun e => h e.symm
        simp [GoMap.set, GoMap.get?, h, hk]
      · simp [GoMap.set, GoMap.get?, h, h', ih]

theorem lastNamed_append_singleton (P : InputParameters) (p : InputParameter)
    (n : String) :
    lastNamed (P ++ [p]) n = if p.Name = n then some p else lastNamed P n := by
  unfold lastNamed
  by_cases h : p.Name = n
  · simp [List.filter_append, h]
  · simp [List.filter_append, h]

theorem lastNamed_isSome (P : InputParameters) (n : String) :
    (lastNamed P n).isSome = true ↔ ∃ p ∈ P, p.Name = n := by
  unfold lastNamed
  rw [List.getLast?_isSome]
  constructor
  · intro h
    obtain ⟨p, hp⟩ := List.exists_mem_of_ne_nil _ h
    rw [List.mem_filter] at hp
    exact ⟨p, hp.1, by simpa using hp.2⟩
  · rintro ⟨p, hp, hn⟩
    apply List.ne_nil_of_mem (a := p)
    rw [List.mem_filter]
    exact ⟨hp, by simpa using hn⟩

/-- The map built by assigning the entries of `P` in order, from `m`. -/
theorem get?_foldl_set (P : InputParameters) (m : GoMap String) (n : String) :
    GoMap.get? (P.foldl (fun ret val => GoMap.set ret val.Name val.Value) m) n
      = match lastNamed P n with
        | some p => some p.Value
        | none => GoMap.get? m n := by
  induction P using List.reverseRecOn with
  | nil => simp [lastNamed]
  | append_singleton P p ih =>
    rw [List.foldl_append, lastNamed_append_singleton]
    simp only [List.foldl_cons, List.foldl_nil]
    rw [GoMap.get?_set]
    by_cases h : p.Name = n
    · simp [h]
    · simp [h, ih]

theorem get?_Map (P : InputParameters) (n : String) :
    GoMap.get? (InputParameters.Map P) n = (lastNamed P n).map (fun p => p.Value) := by
  unfold InputParameters.Map
  rw [get?_foldl_set]
  cases lastNamed P n <;> simp [GoMap.empty, GoMap.get?]

theorem get?_inputParameterMap (job : Job) (n : String) :
    GoMap.get? job.inputParameterMap n
      = (lastNamed job.InputParameters n).map (fun p => p.Value) := by
  unfold Job.inputParameterMap
  rw [get?_foldl_set]
  cases lastNamed job.InputParameters n <;> simp [GoMap.empty, GoMap.get?]

theorem isSome_inputParameterMap (job : Job) (n : String) :
    (GoMap.get? job.inputParameterMap n).isSome = true
      ↔ n ∈ job.InputParameters.map (fun p => p.Name) := by
  have h := lastNamed_isSome job.InputParameters n
  rw [get?_inputParameterMap]
  cases hl : lastNamed job.InputParameters n with
  | none =>
    rw [hl] at h
    simpa using h
  | some p =>
    rw [hl] at h
    simpa using h

theorem collectMissing_eq (m : GoMap String) (missing keys : List String) :
    Job.collectMissing m missing keys
      = missing ++ keys.filter (fun key => !(GoMap.get? m key).isSome) := by
  induction keys generalizing missing with
  | nil => simp [Job.collectMissing]
  | cons key keys ih =>
    by_cases h : (GoMap.get? m key).isSome = true
    · rw [Job.collectMissing, if_pos h, ih, List.filter_cons]
      simp [h]
    · rw [Job.collectMissing, if_neg h, ih, List.filter_cons]
      simp [h]

/-- The names `Validate` reports: those the workflow declares and no entry
of the job carries, in the workflow's order. -/
theorem missing_eq_filter (job : Job) (workflow : Workflow) :
    job.missing workflow
      = workflow.InputParameters.filter
          (fun n => decide (n ∉ job.InputParameters.map (fun p => p.Name))) := by
  unfold Job.missing
  rw [collectMissing_eq, List.nil_append]
  apply List.filter_congr
  intro n _
  have h := isSome_inputParameterMap job n
  by_cases hn : n ∈ job.InputParameters.map (fun p => p.Name)
  · simp [h.mpr hn, hn]
  · have : ¬ (GoMap.get? job.inputParameterMap n).isSome = true := fun e => hn (h.mp e)
    simp [this, hn]

theorem Validate_eq_none_iff (job : Job) (workflow : Workflow) :
    job.Validate workflow = none ↔ job.missing workflow = [] := by
  unfold Job.Validate
  cases h : job.missing workflow <;> simp

theorem Validate_of_missing (job : Job) (workflow : Workflow) :
    job.Validate workflow
      = if job.missing workflow = [] then none
        else some (ErrMsgMissingParamF (formatStrings (job.missing workflow))) := by
  unfold Job.Validate
  cases h : job.missing workflow <;> simp

theorem mem_missing_iff (job : Job) (workflow : Workflow) (n : String) :
    n ∈ job.missing workflow
      ↔ n ∈ workflow.InputParameters ∧ ¬ ∃ p ∈ job.InputParameters, p.Name = n := by
  rw [missing_eq_filter, List.mem_filter]
  simp

/-- The reported names depend on the job through the names of its
entries only. -/
theorem missing_congr (J₁ J₂ : Job) (W : Workflow)
    (h : J₁.InputParameters.map (fun p => p.Name)
          = J₂.InputParameters.map (fun p => p.Name)) :
    J₁.missing W = J₂.missing W := by
  rw [missing_eq_filter, missing_eq_filter, h]

/-! ## Lemmas on case folding -/

theorem equalFoldRunes_length (s t : List Nat) (h : equalFoldRunes s t = true) :
    s.length = t.length := by
  induction s generalizing t with
  | nil =>
    cases t with
    | nil => rfl
    | cons tr t => simp [equalFoldRunes] at h
  | cons sr s ih =>
    cases t with
    | nil => simp [equalFoldRunes] at h
    | cons tr t =>
      simp only [equalFoldRunes, Bool.and_eq_true] at h
      simp [ih t h.2]

/-- A byte sequence that one pattern matches has as many runes as it. -/
theorem EqualFold_length (s t : List Byte) (h : EqualFold s t = true) :
    (runes s).length = (runes t).length :=
  equalFoldRunes_length _ _ h

/-- A rune read from a non-empty sequence takes at least one byte. -/
theorem decodeRune_width_pos (b : Byte) (s : List Byte) :
    1 ≤ (decodeRune (b :: s)).2 := by
  simp only [decodeRune]
  split_ifs
  all_goals first
    | exact Nat.le_refl 1
    | (split
       all_goals first
         | exact Nat.le_refl 1
         | (split_ifs <;> simp))

/-- Any bound that is at least the length of the sequence gives the same
runes: the bound `runes` uses never cuts the reading short. -/
theorem runesAux_fuel (n m : Nat) (s : List Byte)
    (hn : s.length ≤ n) (hm : s.length ≤ m) : runesAux n s = runesAux m s := by
  induction n generalizing m s with
  | zero =>
    have : s = [] := List.length_eq_zero.mp (Nat.le_zero.mp hn)
    subst this
    cases m <;> rfl
  | succ n ih =>
    cases s with
    | nil => cases m <;> rfl
    | cons b s =>
      cases m with
      | zero => simp at hm
      | succ m =>
        have hw := decodeRune_width_pos b s
        simp only [runesAux]
        congr 1
        apply ih
        · simp only [List.length_drop, List.length_cons] at hn ⊢
          omega
        · simp only [List.length_drop, List.length_cons] at hm ⊢
          omega

/-- Three steps of `SimpleFold` at most come back to the starting rune. -/
theorem SimpleFold_orbit (r : Nat) :
    SimpleFold r = r ∨ SimpleFold (SimpleFold r) = r
      ∨ SimpleFold (SimpleFold (SimpleFold r)) = r := by
  by_cases h1 : r = 0x4B
  · subst h1; decide
  by_cases h2 : r = 0x6B
  · subst h2; decide
  by_cases h3 : r = 0x212A
  · subst h3; decide
  by_cases h4 : r = 0x53
  · subst h4; decide
  by_cases h5 : r = 0x73
  · subst h5; decide
  by_cases h6 : r = 0x17F
  · subst h6; decide
  by_cases h7 : 0x41 ≤ r ∧ r ≤ 0x5A
  · right; left
    have e : SimpleFold r = r + 0x20 := by simp [SimpleFold, h1, h2, h3, h4, h5, h6, h7]
    rw [e]
    unfold SimpleFold
    split_ifs <;> omega
  by_cases h8 : 0x61 ≤ r ∧ r ≤ 0x7A
  · right; left
    have e : SimpleFold r = r - 0x20 := by simp [SimpleFold, h1, h2, h3, h4, h5, h6, h7, h8]
    rw [e]
    unfold SimpleFold
    split_ifs <;> omega
  · left
    simp [SimpleFold, h1, h2, h3, h4, h5, h6, h7, h8]

theorem foldReaches_stop (sr tr k r : Nat) (h : r = sr) :
    foldReaches sr tr k r = (r == tr) := by
  cases k <;> simp [foldReaches, h]

theorem foldReaches_add (sr tr : Nat) (k : Nat) :
    ∀ r, SimpleFold^[k] r = sr →
      ∀ n, foldReaches sr tr (k + n) r = foldReaches sr tr k r := by
  induction k with
  | zero =>
    intro r h n
    rw [foldReaches_stop sr tr _ r h, foldReaches_stop sr tr _ r h]
  | succ k ih =>
    intro r h n
    have e : k + 1 + n = (k + n) + 1 := by omega
    rw [e, foldReaches, foldReaches]
    rw [Function.iterate_succ_apply] at h
    rw [ih (SimpleFold r) h n]

/-- The bound of four iterations in `equalFoldRune` is never exhausted: any
larger bound gives the same answer. -/
theorem foldReaches_fuel (sr tr n : Nat) (hn : 4 ≤ n) :
    foldReaches sr tr n (SimpleFold sr) = foldReaches sr tr 4 (SimpleFold sr) := by
  have key : ∀ k, k ≤ 4 → SimpleFold^[k] (SimpleFold sr) = sr →
      foldReaches sr tr n (SimpleFold sr) = foldReaches sr tr 4 (SimpleFold sr) := by
    intro k hk h
    have e1 : n = k + (n - k) := by omega
    have e2 : 4 = k + (4 - k) := by omega
    rw [e1, foldReaches_add sr tr k _ h, e2, foldReaches_add sr tr k _ h]
  rcases SimpleFold_orbit sr with h | h | h
  · exact key 0 (by omega) h
  · exact key 1 (by omega) h
  · exact key 2 (by omega) h

theorem runesAux_eq_runes (n : Nat) (s : List Byte) (h : s.length ≤ n) :
    runesAux n s = runes s :=
  runesAux_fuel n s.length s h (Nat.le_refl _)

/-- The value the method selects does not depend on the receiver. -/
theorem UnmarshalJSON_stat_eq (x y : JobStatus) (b : List Byte) :
    (JobStatus.UnmarshalJSON x b).stat = (JobStatus.UnmarshalJSON y b).stat :=
  rfl

/-! ## Validation and the parameter model -/

/-- C1: for every job and workflow, `Validate` returns no error if and only
if every name of the workflow's `InputParameters` is the `Name` of at least
one entry of the job's `InputParameters`. -/
theorem Validate_succeeds_iff (J : Job) (W : Workflow) :
    J.Validate W = none
      ↔ ∀ n ∈ W.InputParameters, ∃ p ∈ J.InputParameters, p.Name = n := by
  rw [Validate_eq_none_iff, missing_eq_filter, List.filter_eq_nil_iff]
  constructor
  · intro h n hn
    have := h n hn
    simpa using this
  · intro h n hn
    obtain ⟨p, hp, hpn⟩ := h n hn
    simpa using ⟨p, hp, hpn⟩

/-- C2: when `Validate` fails, the message of its error is
"Missing input parameters: " followed by the bracketed, space-separated
rendering of exactly the names of the workflow that no entry of the job
carries, all of them and in the order the workflow declares them. -/
theorem Validate_error_message (J : Job) (W : Workflow)
    (h : J.Validate W ≠ none) :
    J.Validate W
      = some ("Missing input parameters: " ++ "["
          ++ " ".intercalate
              (W.InputParameters.filter
                (fun n => decide (¬ ∃ p ∈ J.InputParameters, p.Name = n)))
          ++ "]") := by
  have hm : J.missing W ≠ [] := fun e => h ((Validate_eq_none_iff J W).mpr e)
  have hf : W.InputParameters.filter
        (fun n => decide (¬ ∃ p ∈ J.InputParameters, p.Name = n))
      = J.missing W := by
    rw [missing_eq_filter]
    apply List.filter_congr
    intro n _
    simp
  rw [hf, Validate_of_missing, if_neg hm]
  simp only [ErrMsgMissingParamF, formatStrings, String.append_assoc]

/-- Witness of C2: the job without parameters, against `w1`, is refused
with the message that lists `host`. -/
theorem Validate_error_message_witness :
    jobNoParameters.Validate workflowW1 ≠ none
      ∧ jobNoParameters.Validate workflowW1
          = some "Missing input parameters: [host]" :=
  ⟨by decide,
   (Validate_error_message jobNoParameters workflowW1 (by decide)).trans
     (by decide)⟩

/-- C3: `Map` holds a key `n` exactly when some entry of the list is named
`n`, and the value under `n` is then the `Value` of the last entry named
`n`; on `[{a,1},{b,2},{a,3}]` the map is `{a:3, b:2}`. -/
theorem Map_last_write_wins :
    (∀ (P : InputParameters) (n : String),
        ((GoMap.get? (InputParameters.Map P) n).isSome = true
            ↔ ∃ p ∈ P, p.Name = n)
        ∧ GoMap.get? (InputParameters.Map P) n
            = ((P.filter (fun p => p.Name = n)).getLast?).map
                (fun p => p.Value))
      ∧ GoMap.get? (InputParameters.Map [⟨"a", "1"⟩, ⟨"b", "2"⟩, ⟨"a", "3"⟩]) "a"
          = some "3"
      ∧ GoMap.get? (InputParameters.Map [⟨"a", "1"⟩, ⟨"b", "2"⟩, ⟨"a", "3"⟩]) "b"
          = some "2"
      ∧ ∀ n, n ≠ "a" → n ≠ "b" →
          GoMap.get? (InputParameters.Map [⟨"a", "1"⟩, ⟨"b", "2"⟩, ⟨"a", "3"⟩]) n
            = none := by
  refine ⟨fun P n => ⟨?_, get?_Map P n⟩, by decide, by decide, ?_⟩
  · rw [get?_Map, Option.isSome_map']
    exact lastNamed_isSome P n
  · intro n ha hb
    have ha' : ¬ "a" = n := fun e => ha e.symm
    have hb' : ¬ "b" = n := fun e => hb e.symm
    simp [InputParameters.Map, GoMap.empty, GoMap.set, GoMap.get?, ha', hb']

/-- C8: parameters added anywhere in a job are tolerated. If `Validate`
accepts the job whose parameters are `A ++ B`, it accepts the job whose
parameters are `A ++ E ++ B`; and every name reported missing for the
extended job is reported missing for the original one. -/
theorem Validate_tolerates_extra (J : Job) (W : Workflow)
    (A E B : InputParameters) :
    ((J.withParameters (A ++ B)).Validate W = none
        → (J.withParameters (A ++ E ++ B)).Validate W = none)
      ∧ ∀ n, n ∈ (J.withParameters (A ++ E ++ B)).missing W
          → n ∈ (J.withParameters (A ++ B)).missing W := by
  have hsub : ∀ n, n ∈ (J.withParameters (A ++ E ++ B)).missing W
      → n ∈ (J.withParameters (A ++ B)).missing W := by
    intro n hn
    rw [mem_missing_iff] at hn ⊢
    refine ⟨hn.1, ?_⟩
    rintro ⟨p, hp, hpn⟩
    apply hn.2
    refine ⟨p, ?_, hpn⟩
    simp only [Job.withParameters, List.mem_append] at hp ⊢
    rcases hp with hp | hp
    · exact Or.inl (Or.inl hp)
    · exact Or.inr hp
  refine ⟨?_, hsub⟩
  intro h
  rw [Validate_eq_none_iff] at h ⊢
  apply List.eq_nil_iff_forall_not_mem.mpr
  intro n hn
  have := hsub n hn
  rw [h] at this
  exact absurd this (List.not_mem_nil n)

/-- Witness of C8: the job that gives `host` is accepted against `w1`, and
stays accepted with the parameters `debug` and `trace` put before `host`. -/
theorem Validate_tolerates_extra_witness :
    (jobNoParameters.withParameters ([] ++ [⟨"host", "x"⟩])).Validate workflowW1
        = none
      ∧ (jobNoParameters.withParameters
          ([] ++ [⟨"debug", "1"⟩, ⟨"trace", "2"⟩] ++ [⟨"host", "x"⟩])).Validate
            workflowW1 = none :=
  ⟨by decide,
   (Validate_tolerates_extra jobNoParameters workflowW1
      [] [⟨"debug", "1"⟩, ⟨"trace", "2"⟩] [⟨"host", "x"⟩]).1 (by decide)⟩

/-- C9: `Validate` does not read the values. Two jobs whose parameters carry
the same sequence of names get the same result from `Validate`, error
message included; and a name carried by an entry whose value is the empty
string is not reported missing. -/
theorem Validate_ignores_values (W : Workflow) (J₁ J₂ : Job)
    (h : J₁.InputParameters.map (fun p => p.Name)
          = J₂.InputParameters.map (fun p => p.Name)) :
    J₁.Validate W = J₂.Validate W
      ∧ ∀ p ∈ J₁.InputParameters, p.Value = "" → p.Name ∉ J₁.missing W := by
  refine ⟨?_, ?_⟩
  · rw [Validate_of_missing, Validate_of_missing, missing_congr J₁ J₂ W h]
  · intro p hp _ hmem
    rw [mem_missing_iff] at hmem
    exact hmem.2 ⟨p, hp, rfl⟩

/-- Witness of C9: against `w1`, the job that gives `host` the empty value
and the job that gives it the value `x` carry the same names and get the
same result, which is acceptance. -/
theorem Validate_ignores_values_witness :
    (jobNoParameters.withParameters [⟨"host", ""⟩]).InputParameters.map
          (fun p => p.Name)
        = (jobNoParameters.withParameters [⟨"host", "x"⟩]).InputParameters.map
          (fun p => p.Name)
      ∧ (jobNoParameters.withParameters [⟨"host", ""⟩]).Validate workflowW1
        = (jobNoParameters.withParameters [⟨"host", "x"⟩]).Validate workflowW1
      ∧ (jobNoParameters.withParameters [⟨"host", ""⟩]).Validate workflowW1
          = none :=
  ⟨by decide,
   (Validate_ignores_values workflowW1
      (jobNoParameters.withParameters [⟨"host", ""⟩])
      (jobNoParameters.withParameters [⟨"host", "x"⟩]) (by decide)).1,
   by decide⟩

/-! ## Encoding and decoding of a status -/

/-- C4: `String` gives the lowercase wire token of each status, `failed`
(and not `failure`) for `StatusFailure`; `MarshalJSON` returns a nil error
and exactly the bytes of that token. -/
theorem String_and_MarshalJSON_tokens :
    JobStatus.String StatusPending = "pending"
      ∧ JobStatus.String StatusProcessing = "processing"
      ∧ JobStatus.String StatusDone = "done"
      ∧ JobStatus.String StatusFailure = "failed"
      ∧ JobStatus.String StatusFailure ≠ "failure"
      ∧ (∀ stat : JobStatus,
          (JobStatus.MarshalJSON stat).2 = none
            ∧ (JobStatus.MarshalJSON stat).1 = goBytes (JobStatus.String stat))
      ∧ (JobStatus.MarshalJSON StatusPending).1
          = [0x70, 0x65, 0x6E, 0x64, 0x69, 0x6E, 0x67]
      ∧ (JobStatus.MarshalJSON StatusProcessing).1
          = [0x70, 0x72, 0x6F, 0x63, 0x65, 0x73, 0x73, 0x69, 0x6E, 0x67]
      ∧ (JobStatus.MarshalJSON StatusDone).1 = [0x64, 0x6F, 0x6E, 0x65]
      ∧ (JobStatus.MarshalJSON StatusFailure).1
          = [0x66, 0x61, 0x69, 0x6C, 0x65, 0x64] := by
  refine ⟨by decide, by decide, by decide, by decide, by decide,
    fun stat => ⟨rfl, rfl⟩, by decide, by decide, by decide, by decide⟩

/-- C5, evaluated on the code: a variable that holds `StatusDone` decodes
the bytes `MarshalJSON` gives for `StatusProcessing`. The call returns no
error and its own copy becomes `StatusProcessing`, but the variable still
holds `StatusDone`. For `StatusFailure` not even the copy is right: its
token `failed` is not recognised and the copy becomes -1. -/
theorem UnmarshalJSON_MarshalJSON_receiver_unchanged :
    (JobStatus.UnmarshalJSON StatusDone
        (JobStatus.MarshalJSON StatusProcessing).1).err = none
      ∧ (JobStatus.UnmarshalJSON StatusDone
          (JobStatus.MarshalJSON StatusProcessing).1).stat = StatusProcessing
      ∧ (JobStatus.UnmarshalJSON StatusDone
          (JobStatus.MarshalJSON StatusProcessing).1).receiver = StatusDone
      ∧ (JobStatus.UnmarshalJSON StatusDone
          (JobStatus.MarshalJSON StatusProcessing).1).receiver ≠ StatusProcessing
      ∧ (JobStatus.UnmarshalJSON StatusDone
          (JobStatus.MarshalJSON StatusFailure).1).stat = -1
      ∧ (JobStatus.UnmarshalJSON StatusDone
          (JobStatus.MarshalJSON StatusFailure).1).receiver ≠ StatusFailure := by
  refine ⟨by decide, by decide, by decide, by decide, by decide, by decide⟩

/-- C6, evaluated on the code: `String` renders `StatusFailure` as `failed`,
and decoding `failed` selects the sentinel -1, not `StatusFailure`; the
token that selects `StatusFailure` is `failure`. -/
theorem UnmarshalJSON_failed_selects_sentinel :
    JobStatus.String StatusFailure = "failed"
      ∧ (∀ x : JobStatus,
          (JobStatus.UnmarshalJSON x (goBytes "failed")).stat = -1
            ∧ (JobStatus.UnmarshalJSON x (goBytes "failed")).stat ≠ StatusFailure
            ∧ (JobStatus.UnmarshalJSON x (goBytes "failure")).stat
                = StatusFailure) := by
  refine ⟨by decide, fun x => ⟨?_, ?_, ?_⟩⟩
  · rw [UnmarshalJSON_stat_eq x 0]
    decide
  · rw [UnmarshalJSON_stat_eq x 0]
    decide
  · rw [UnmarshalJSON_stat_eq x 0]
    decide

/-- C7 fails as stated: `bogus` is none of the four status tokens, and
decoding it returns a nil error; so it is not the case that every input
other than the four tokens gets a decode error. -/
theorem UnmarshalJSON_unknown_token_no_error :
    goBytes "bogus" ∉ statusTokens
      ∧ (JobStatus.UnmarshalJSON StatusPending (goBytes "bogus")).err = none
      ∧ ¬ (∀ (x : JobStatus) (b : List Byte), b ∉ statusTokens
            → (JobStatus.UnmarshalJSON x b).err ≠ none) := by
  refine ⟨by decide, by decide, ?_⟩
  intro h
  exact h StatusPending (goBytes "bogus") (by decide) rfl

/-- C7 as amended: `UnmarshalJSON` returns a nil error on every input. An
input that is, in any letter case, `pending`, `processing` or `done`
selects that status. An input that is, in any letter case, none of
`pending`, `processing`, `done`, `failed` and `failure` selects the
sentinel -1, which is none of the four statuses: an unknown token is not
coerced to a real status. -/
theorem UnmarshalJSON_unknown_token_sentinel (x : JobStatus) (b : List Byte) :
    (JobStatus.UnmarshalJSON x b).err = none
      ∧ (EqualFold b (goBytes "pending") = true
          → (JobStatus.UnmarshalJSON x b).stat = StatusPending)
      ∧ (EqualFold b (goBytes "processing") = true
          → (JobStatus.UnmarshalJSON x b).stat = StatusProcessing)
      ∧ (EqualFold b (goBytes "done") = true
          → (JobStatus.UnmarshalJSON x b).stat = StatusDone)
      ∧ (EqualFold b (goBytes "pending") = false
          → EqualFold b (goBytes "processing") = false
          → EqualFold b (goBytes "done") = false
          → EqualFold b (goBytes "failed") = false
          → EqualFold b (goBytes "failure") = false
          → (JobStatus.UnmarshalJSON x b).stat = -1
            ∧ (JobStatus.UnmarshalJSON x b).stat ≠ StatusDone
            ∧ (JobStatus.UnmarshalJSON x b).stat ≠ StatusPending
            ∧ (JobStatus.UnmarshalJSON x b).stat ≠ StatusProcessing
            ∧ (JobStatus.UnmarshalJSON x b).stat ≠ StatusFailure) := by
  have l7 : (runes (goBytes "pending")).length = 7 := by decide
  have l10 : (runes (goBytes "processing")).length = 10 := by decide
  have l4 : (runes (goBytes "done")).length = 4 := by decide
  refine ⟨rfl, ?_, ?_, ?_, ?_⟩
  · intro h
    simp [JobStatus.UnmarshalJSON, h]
  · intro h
    have hp : EqualFold b (goBytes "pending") = false := by
      cases hp : EqualFold b (goBytes "pending") with
      | false => rfl
      | true =>
        have e1 := EqualFold_length _ _ hp
        have e2 := EqualFold_length _ _ h
        omega
    simp [JobStatus.UnmarshalJSON, h, hp]
  · intro h
    have hp : EqualFold b (goBytes "pending") = false := by
      cases hp : EqualFold b (goBytes "pending") with
      | false => rfl
      | true =>
        have e1 := EqualFold_length _ _ hp
        have e2 := EqualFold_length _ _ h
        omega
    have hq : EqualFold b (goBytes "processing") = false := by
      cases hq : EqualFold b (goBytes "processing") with
      | false => rfl
      | true =>
        have e1 := EqualFold_length _ _ hq
        have e2 := EqualFold_length _ _ h
        omega
    simp [JobStatus.UnmarshalJSON, h, hp, hq]
  · intro h1 h2 h3 _ h5
    have hs : (JobStatus.UnmarshalJSON x b).stat = -1 := by
      simp [JobStatus.UnmarshalJSON, h1, h2, h3, h5]
    rw [hs]
    refine ⟨rfl, by decide, by decide, by decide, by decide⟩

/-- Witness of C7 as amended: `bogus` is none of the five tokens, decoding
it returns a nil error and selects -1; `Pending` selects `StatusPending`. -/
theorem UnmarshalJSON_unknown_token_sentinel_witness :
    EqualFold (goBytes "bogus") (goBytes "pending") = false
      ∧ EqualFold (goBytes "bogus") (goBytes "processing") = false
      ∧ EqualFold (goBytes "bogus") (goBytes "done") = false
      ∧ EqualFold (goBytes "bogus") (goBytes "failed") = false
      ∧ EqualFold (goBytes "bogus") (goBytes "failure") = false
      ∧ (JobStatus.UnmarshalJSON StatusPending (goBytes "bogus")).err = none
      ∧ (JobStatus.UnmarshalJSON StatusPending (goBytes "bogus")).stat = -1
      ∧ EqualFold (goBytes "Pending") (goBytes "pending") = true
      ∧ (JobStatus.UnmarshalJSON StatusDone (goBytes "Pending")).stat
          = StatusPending :=
  ⟨by decide, by decide, by decide, by decide, by decide,
   (UnmarshalJSON_unknown_token_sentinel StatusPending (goBytes "bogus")).1,
   ((UnmarshalJSON_unknown_token_sentinel StatusPending
      (goBytes "bogus")).2.2.2.2
      (by decide) (by decide) (by decide) (by decide) (by decide)).1,
   by decide,
   (UnmarshalJSON_unknown_token_sentinel StatusDone (goBytes "Pending")).2.1
      (by decide)⟩

/-- C11: on every receiver `s` and every input `b`, `UnmarshalJSON`
returns a nil error and leaves the caller's variable at `s`; the decoded
value goes to the method's copy only, and an input the switch does not
recognise sets that copy, and nothing else, to -1. -/
theorem UnmarshalJSON_leaves_receiver (s : JobStatus) (b : List Byte) :
    (JobStatus.UnmarshalJSON s b).err = none
      ∧ (JobStatus.UnmarshalJSON s b).receiver = s
      ∧ (EqualFold b (goBytes "pending") = false
          → EqualFold b (goBytes "processing") = false
          → EqualFold b (goBytes "done") = false
          → EqualFold b (goBytes "failure") = false
          → JobStatus.UnmarshalJSON s b
              = { stat := -1, receiver := s, err := none }) := by
  refine ⟨rfl, rfl, ?_⟩
  intro h1 h2 h3 h4
  simp [JobStatus.UnmarshalJSON, h1, h2, h3, h4]

/-- Witness of C11: a variable that holds `StatusProcessing` keeps it after
decoding `pending`, although the copy became `StatusPending`; after
decoding `nonsense` it keeps it too, the copy being -1. -/
theorem UnmarshalJSON_leaves_receiver_witness :
    (JobStatus.UnmarshalJSON StatusProcessing (goBytes "pending")).receiver
        = StatusProcessing
      ∧ (JobStatus.UnmarshalJSON StatusProcessing (goBytes "pending")).stat
        = StatusPending
      ∧ (JobStatus.UnmarshalJSON StatusProcessing (goBytes "pending")).err
        = none
      ∧ EqualFold (goBytes "nonsense") (goBytes "pending") = false
      ∧ EqualFold (goBytes "nonsense") (goBytes "processing") = false
      ∧ EqualFold (goBytes "nonsense") (goBytes "done") = false
      ∧ EqualFold (goBytes "nonsense") (goBytes "failure") = false
      ∧ JobStatus.UnmarshalJSON StatusProcessing (goBytes "nonsense")
        = { stat := -1, receiver := StatusProcessing, err := none } :=
  ⟨(UnmarshalJSON_leaves_receiver StatusProcessing (goBytes "pending")).2.1,
   by decide,
   (UnmarshalJSON_leaves_receiver StatusProcessing (goBytes "pending")).1,
   by decide, by decide, by decide, by decide,
   (UnmarshalJSON_leaves_receiver StatusProcessing (goBytes "nonsense")).2.2
     (by decide) (by decide) (by decide) (by decide)⟩

/-- C12: `Validate` agrees with the Parameter Model. The map its first loop
builds answers every lookup as `Map` does, so the names it holds are the
keys of `Map`; `Validate` succeeds if and only if every name the workflow
declares is a key of `Map`; and `Validate` returns what the validator
written over `Map` returns, message included. -/
theorem Validate_agrees_with_Map (J : Job) (W : Workflow) :
    (∀ n, GoMap.get? J.inputParameterMap n
          = GoMap.get? (InputParameters.Map J.InputParameters) n)
      ∧ (J.Validate W = none
          ↔ ∀ n ∈ W.InputParameters,
              (GoMap.get? (InputParameters.Map J.InputParameters) n).isSome
                = true)
      ∧ J.Validate W = J.ValidateByMap W := by
  have hmap : ∀ n, GoMap.get? J.inputParameterMap n
      = GoMap.get? (InputParameters.Map J.InputParameters) n := by
    intro n
    rw [get?_inputParameterMap, get?_Map]
  have hmiss : J.missing W
      = W.InputParameters.filter
          (fun n =>
            (GoMap.get? (InputParameters.Map J.InputParameters) n).isNone) := by
    unfold Job.missing
    rw [collectMissing_eq, List.nil_append]
    apply List.filter_congr
    intro n _
    rw [hmap n]
    cases GoMap.get? (InputParameters.Map J.InputParameters) n <;> rfl
  refine ⟨hmap, ?_, ?_⟩
  · rw [Validate_eq_none_iff, hmiss, List.filter_eq_nil_iff]
    constructor
    · intro h n hn
      have := h n hn
      cases hg : GoMap.get? (InputParameters.Map J.InputParameters) n with
      | none => simp [hg] at this
      | some v => rfl
    · intro h n hn
      have := h n hn
      cases hg : GoMap.get? (InputParameters.Map J.InputParameters) n with
      | none => simp [hg] at this
      | some v => simp
  · rw [Validate_of_missing, hmiss]
    rfl

/-- C13: the unknown sentinel is apart from every real state. The value
-1 is none of the four statuses; it is what `UnmarshalJSON` selects for an
input its switch does not recognise; `String` is injective on the four
statuses; and `String` gives `unknown` for a value exactly when the value
is none of the four. -/
theorem sentinel_distinct_from_statuses :
    ((-1 : JobStatus) ≠ StatusDone ∧ (-1 : JobStatus) ≠ StatusPending
        ∧ (-1 : JobStatus) ≠ StatusProcessing
        ∧ (-1 : JobStatus) ≠ StatusFailure)
      ∧ (∀ (x : JobStatus) (b : List Byte),
          EqualFold b (goBytes "pending") = false
          → EqualFold b (goBytes "processing") = false
          → EqualFold b (goBytes "done") = false
          → EqualFold b (goBytes "failure") = false
          → (JobStatus.UnmarshalJSON x b).stat = -1)
      ∧ (∀ s ∈ [StatusDone, StatusPending, StatusProcessing, StatusFailure],
          ∀ t ∈ [StatusDone, StatusPending, StatusProcessing, StatusFailure],
            JobStatus.String s = JobStatus.String t → s = t)
      ∧ (∀ v : JobStatus,
          JobStatus.String v = "unknown"
            ↔ v ≠ StatusDone ∧ v ≠ StatusPending ∧ v ≠ StatusProcessing
                ∧ v ≠ StatusFailure) := by
  refine ⟨by decide, ?_, by decide, ?_⟩
  · intro x b h1 h2 h3 h4
    simp [JobStatus.UnmarshalJSON, h1, h2, h3, h4]
  · intro v
    unfold JobStatus.String
    by_cases hp : v = StatusPending
    · simp only [hp, if_true]
      constructor
      · intro h
        exact absurd h (by decide)
      · intro h
        exact absurd rfl h.2.1
    by_cases hq : v = StatusProcessing
    · rw [if_neg hp, if_pos hq]
      constructor
      · intro h
        exact absurd h (by decide)
      · intro h
        exact absurd hq h.2.2.1
    by_cases hd : v = StatusDone
    · rw [if_neg hp, if_neg hq, if_pos hd]
      constructor
      · intro h
        exact absurd h (by decide)
      · intro h
        exact absurd hd h.1
    by_cases hf : v = StatusFailure
    · rw [if_neg hp, if_neg hq, if_neg hd, if_pos hf]
      constructor
      · intro h
        exact absurd h (by decide)
      · intro h
        exact absurd hf h.2.2.2
    · rw [if_neg hp, if_neg hq, if_neg hd, if_neg hf]
      exact ⟨fun _ => ⟨hd, hp, hq, hf⟩, fun _ => rfl⟩

/-- Witness of C13: `paused` is not recognised, the value selected for it is
-1, and `String` renders -1 as `unknown` while it renders no real status
so. -/
theorem sentinel_distinct_from_statuses_witness :
    EqualFold (goBytes "paused") (goBytes "pending") = false
      ∧ EqualFold (goBytes "paused") (goBytes "processing") = false
      ∧ EqualFold (goBytes "paused") (goBytes "done") = false
      ∧ EqualFold (goBytes "paused") (goBytes "failure") = false
      ∧ (JobStatus.UnmarshalJSON StatusDone (goBytes "paused")).stat = -1
      ∧ JobStatus.String (-1) = "unknown"
      ∧ JobStatus.String StatusFailure ≠ "unknown" :=
  ⟨by decide, by decide, by decide, by decide,
   sentinel_distinct_from_statuses.2.1 StatusDone (goBytes "paused")
     (by decide) (by decide) (by decide) (by decide),
   (sentinel_distinct_from_statuses.2.2.2 (-1)).mpr
     ⟨by decide, by decide, by decide, by decide⟩,
   fun h => ((sentinel_distinct_from_statuses.2.2.2 StatusFailure).mp h).2.2.2
     rfl⟩

/-- C14: the zero value of `JobStatus`, which is the `Status` of a job whose
`Status` field was never set, is `StatusDone`, of numeric value 0, and
`String` renders it as `done`; it is not `StatusPending`, whose numeric
value is 1. -/
theorem zero_JobStatus_is_StatusDone :
    zeroJobStatus = StatusDone
      ∧ StatusDone = (0 : Int)
      ∧ StatusPending = (1 : Int)
      ∧ zeroJobStatus ≠ StatusPending
      ∧ JobStatus.String zeroJobStatus = "done"
      ∧ ∀ (ID WorkflowName : String) (P : InputParameters)
          (Results : List TaskResult) (InsertTime : Int),
          (Job.withoutStatus ID WorkflowName P Results InsertTime).Status
              = StatusDone
            ∧ (Job.withoutStatus ID WorkflowName P Results InsertTime).Status
              ≠ StatusPending
            ∧ JobStatus.String
                (Job.withoutStatus ID WorkflowName P Results InsertTime).Status
              = "done" := by
  refine ⟨rfl, rfl, rfl, by decide, by decide, ?_⟩
  intro ID WorkflowName P Results InsertTime
  have h : (Job.withoutStatus ID WorkflowName P Results InsertTime).Status
      = zeroJobStatus := rfl
  rw [h]
  exact ⟨rfl, by decide, by decide⟩

end Workflows
